import Mathlib

/-!
Verification of the N-up page-composition core of `merge_pdfs.py`.

The script merges PDF files and optionally tiles several source pages onto
each output sheet.  The definitions below are a shallow embedding of the
script's functions: page dimensions (Python floats holding PDF point values)
become rationals, Python ints become integers or naturals after validation,
and any operation that can raise becomes `Except Err`.  A Python
`ZeroDivisionError` arising in the scale computation is modelled as
`Err.invalidGeometry`, a `ValueError` from argument validation as
`Err.invalidArgument`, and a `FileNotFoundError` as `Err.notFound`.
-/

namespace MergePdfs

/-- Error kinds of the script, as surfaced by the exceptions it raises. -/
inductive Err where
  | notFound
  | alreadyExists
  | invalidArgument
  | emptyInput
  | invalidGeometry
deriving DecidableEq, Repr

/-- Page orientation choices accepted by the `--orientation` flag. -/
inductive Orientation where
  | portrait
  | landscape
deriving DecidableEq, Repr

/-- One source page, carrying its media-box dimensions (`get_page_size`). -/
structure SrcPage where
  width : ℚ
  height : ℚ
deriving DecidableEq, Repr

/-- Lines 150-152: `get_page_size` returns the media-box width and height. -/
def get_page_size (p : SrcPage) : ℚ × ℚ := (p.width, p.height)

/-- Lines 267-273: `orient_dimensions` adjusts the base page dimensions for
the requested orientation. -/
def orient_dimensions (width height : ℚ) (o : Orientation) : ℚ × ℚ :=
  match o with
  | .portrait => (min width height, max width height)
  | .landscape => (max width height, min width height)

/-- Lines 199-204 of `add_nup_page`: the orientation-dependent mapping from a
chunk index to a grid cell, returned as `(col, row_from_top)`. -/
def grid_index (o : Orientation) (rows cols idx : ℕ) : ℕ × ℕ :=
  match o with
  | .portrait => (idx / rows, idx % rows)
  | .landscape => (idx % cols, idx / cols)

/-- The affine placement data computed per page: the `ctm` tuple of line 209
is `(scale, 0, 0, scale, offsetX, offsetY)`, so only these three numbers. -/
structure Placement where
  scale : ℚ
  offsetX : ℚ
  offsetY : ℚ
deriving DecidableEq, Repr

/-- Lines 196-209: the per-page body of the loop in `add_nup_page`.  Python
raises `ZeroDivisionError` when a source dimension is zero (the two divisions
of line 198), modelled as `Err.invalidGeometry`; the width division happens
first.  `row_from_bottom` is Python int arithmetic, hence `ℤ`. -/
def place_page (cell_width cell_height : ℚ) (rows cols : ℕ) (o : Orientation)
    (idx : ℕ) (src : SrcPage) : Except Err Placement :=
  if src.width = 0 then .error .invalidGeometry
  else if src.height = 0 then .error .invalidGeometry
  else
    let scale := min (cell_width / src.width) (cell_height / src.height)
    let ci := grid_index o rows cols idx
    let row_from_bottom : ℤ := (rows : ℤ) - 1 - (ci.2 : ℤ)
    .ok
      { scale := scale
        offsetX := (ci.1 : ℚ) * cell_width + (cell_width - src.width * scale) / 2
        offsetY := (row_from_bottom : ℚ) * cell_height + (cell_height - src.height * scale) }

/-- The loop of lines 196-213, indexing the chunk from `idx` upward and
collecting each page's placement; the first failure aborts the sheet. -/
def place_chunk (cell_width cell_height : ℚ) (rows cols : ℕ) (o : Orientation) :
    ℕ → List SrcPage → Except Err (List Placement)
  | _, [] => .ok []
  | idx, src :: rest =>
    match place_page cell_width cell_height rows cols o idx src with
    | .error e => .error e
    | .ok pl =>
      match place_chunk cell_width cell_height rows cols o (idx + 1) rest with
      | .error e => .error e
      | .ok pls => .ok (pl :: pls)

/-- One composed output sheet: the blank canvas dimensions of line 193 plus
the placements merged onto it. -/
structure Sheet where
  width : ℚ
  height : ℚ
  placements : List Placement
deriving DecidableEq, Repr

/-- Lines 184-214: `add_nup_page` builds one sheet from a chunk.  The cell
divisions of lines 194-195 are Python divisions, so a zero `cols` or `rows`
would raise `ZeroDivisionError` (modelled as `Err.invalidGeometry`). -/
def add_nup_page (chunk : List SrcPage) (page_width page_height : ℚ)
    (rows cols : ℕ) (o : Orientation) : Except Err Sheet :=
  if cols = 0 ∨ rows = 0 then .error .invalidGeometry
  else
    let cell_width := page_width / (cols : ℚ)
    let cell_height := page_height / (rows : ℚ)
    match place_chunk cell_width cell_height rows cols o 0 chunk with
    | .error e => .error e
    | .ok pls => .ok { width := page_width, height := page_height, placements := pls }

/-- Lines 165-179: the per-chunk body of the loop in `write_nup` — take the
chunk's first page's size, orient it, and compose the sheet.  An empty chunk
would hit `chunk_pages[0]` (IndexError); it is unreachable from `write_nup`
and modelled as `Err.emptyInput`. -/
def sheet_of_chunk (chunk : List SrcPage) (rows cols : ℕ) (o : Orientation) :
    Except Err Sheet :=
  match chunk with
  | [] => .error .emptyInput
  | first :: _ =>
    let bs := get_page_size first
    let os := orient_dimensions bs.1 bs.2 o
    add_nup_page chunk os.1 os.2 rows cols o

/-- Fuel-driven helper for `chunks`; the fuel is an upper bound on the number
of loop iterations of `range(0, len(page_refs), pages_per_sheet)`. -/
def chunksAux (k : ℕ) : ℕ → List SrcPage → List (List SrcPage)
  | _, [] => []
  | 0, _ :: _ => []
  | fuel + 1, a :: tl => (a :: tl).take k :: chunksAux k fuel ((a :: tl).drop k)

/-- Line 164: the slicing `page_refs[start : start + pages_per_sheet]` for
`start in range(0, len(page_refs), pages_per_sheet)`, as a list of chunks. -/
def chunks (k : ℕ) (l : List SrcPage) : List (List SrcPage) :=
  chunksAux k l.length l

/-- The loop of lines 164-179 over all chunks, collecting the sheets; the
first failing chunk aborts the whole run. -/
def sheets_of_chunks (rows cols : ℕ) (o : Orientation) :
    List (List SrcPage) → Except Err (List Sheet)
  | [] => .ok []
  | chunk :: rest =>
    match sheet_of_chunk chunk rows cols o with
    | .error e => .error e
    | .ok s =>
      match sheets_of_chunks rows cols o rest with
      | .error e => .error e
      | .ok ss => .ok (s :: ss)

/-- Lines 155-181: `write_nup` composes every chunk into a sheet.  The output
file is opened only after the loop finishes, so an error means no bytes are
written: the `Except` result models exactly that. -/
def write_nup (page_refs : List SrcPage) (pages_per_sheet rows cols : ℕ)
    (o : Orientation) : Except Err (List Sheet) :=
  sheets_of_chunks rows cols o (chunks pages_per_sheet page_refs)

/-- Lines 142-147: `write_linear` appends every page reference to the writer
unchanged and in order. -/
def write_linear (page_refs : List SrcPage) : List SrcPage := page_refs

/-- One page of the output document: either a source page passed through by
`write_linear`, or a sheet composed by `write_nup`. -/
inductive OutPage where
  | passthrough (src : SrcPage)
  | composed (sheet : Sheet)
deriving DecidableEq, Repr

/-- Dimensions of an output page. -/
def OutPage.dims : OutPage → ℚ × ℚ
  | .passthrough src => (src.width, src.height)
  | .composed sheet => (sheet.width, sheet.height)

/-- Lines 283-293 of `main`: route to `write_linear` when `pages_per_sheet`
is 1 and to `write_nup` otherwise. -/
def compose_pages (page_refs : List SrcPage) (pages_per_sheet rows cols : ℕ)
    (o : Orientation) : Except Err (List OutPage) :=
  if pages_per_sheet = 1 then
    .ok ((write_linear page_refs).map OutPage.passthrough)
  else
    match write_nup page_refs pages_per_sheet rows cols o with
    | .error e => .error e
    | .ok sheets => .ok (sheets.map OutPage.composed)

/-- Lines 261-264: `ensure_positive_int` raises `ValueError` on `None` or a
value below 1; on success the Python int is at least 1, returned here as the
corresponding natural number. -/
def ensure_positive_int (value : Option ℤ) : Except Err ℕ :=
  match value with
  | none => .error .invalidArgument
  | some v => if v < 1 then .error .invalidArgument else .ok v.toNat

/-- Line 231: `math.ceil(math.sqrt(p))`, modelled exactly as the integer
ceiling of the square root. -/
def ceil_sqrt (n : ℕ) : ℕ :=
  if Nat.sqrt n * Nat.sqrt n = n then Nat.sqrt n else Nat.sqrt n + 1

/-- Line 232: `math.ceil(p / cols)`, modelled exactly as the integer ceiling
of the quotient. -/
def ceil_div (a b : ℕ) : ℕ := (a + b - 1) / b

/-- Lines 217-258: `resolve_nup_options` determines pages per sheet plus grid
rows/cols from the optional CLI integers.  The result triple is
`(pages_per_sheet, rows, cols)`, all validated positive. -/
def resolve_nup_options (pages_per_sheet0 nup_rows nup_cols : Option ℤ)
    (o : Orientation) : Except Err (ℕ × ℕ × ℕ) :=
  let pps0 :=
    if pages_per_sheet0 = none ∧ nup_rows = none ∧ nup_cols = none then
      some (1 : ℤ)
    else pages_per_sheet0
  if nup_rows = none ∧ nup_cols = none then
    match ensure_positive_int pps0 with
    | .error e => .error e
    | .ok p =>
      let cols := ceil_sqrt p
      let rows := ceil_div p cols
      if o = .portrait ∧ 1 < p ∧ rows < cols then .ok (p, cols, rows)
      else .ok (p, rows, cols)
  else if (nup_rows.isNone != nup_cols.isNone) = true then .error .invalidArgument
  else
    match ensure_positive_int nup_rows with
    | .error e => .error e
    | .ok rows =>
      match ensure_positive_int nup_cols with
      | .error e => .error e
      | .ok cols =>
        match pages_per_sheet0 with
        | none => .ok (rows * cols, rows, cols)
        | some _ =>
          match ensure_positive_int pages_per_sheet0 with
          | .error e => .error e
          | .ok p =>
            if p ≠ rows * cols then .error .invalidArgument
            else .ok (p, rows, cols)

/-- Lines 95-126 of `validate_paths`, with the filesystem abstracted: the
argument `dir_pdfs` is the sorted, output-excluded `.pdf` listing of
`--input-dir` when that flag is given (`none` otherwise), and every explicit
positional input is assumed to exist with a `.pdf` suffix.  An empty
directory listing raises `FileNotFoundError` (line 110); fewer than two total
resolved files raises `ValueError` (lines 121-124). -/
def validate_file_paths (dir_pdfs : Option (List String)) (inputs : List String) :
    Except Err (List String) :=
  match (match dir_pdfs with
         | none => Except.ok ([] : List String)
         | some l => if l = [] then .error Err.notFound else .ok l) with
  | .error e => .error e
  | .ok fromDir =>
    let input_paths := fromDir ++ inputs
    if input_paths.length < 2 then .error .invalidArgument
    else .ok input_paths

/-- Total number of resolved input files: directory-scanned plus explicit. -/
def resolved_count (dir_pdfs : Option (List String)) (inputs : List String) : ℕ :=
  (match dir_pdfs with | none => 0 | some l => l.length) + inputs.length

/-- The mathematical characterisation of an integer ceiling square root:
least natural whose square covers `a`. -/
def IsCeilSqrt (a c : ℕ) : Prop :=
  a ≤ c * c ∧ ∀ m : ℕ, a ≤ m * m → c ≤ m

/-- The mathematical characterisation of an integer ceiling quotient of `a`
by `b`: least natural `r` with `r * b ≥ a`. -/
def IsCeilDiv (a b r : ℕ) : Prop :=
  a ≤ r * b ∧ ∀ m : ℕ, a ≤ m * b → r ≤ m

/-! ### Helper lemmas -/

theorem ensure_positive_int_ok (v : Option ℤ) (n : ℕ)
    (h : ensure_positive_int v = .ok n) : 1 ≤ n ∧ v = some (n : ℤ) := by
  match v with
  | none => simp [ensure_positive_int] at h
  | some m =>
    simp only [ensure_positive_int] at h
    split at h
    · exact absurd h (by simp)
    · simp only [Except.ok.injEq] at h
      subst h
      constructor
      · omega
      · simp only [Option.some.injEq]
        omega

theorem ceil_sqrt_spec (n : ℕ) : IsCeilSqrt n (ceil_sqrt n) := by
  unfold IsCeilSqrt ceil_sqrt
  rcases eq_or_ne (Nat.sqrt n * Nat.sqrt n) n with h | h
  · simp only [h, if_pos rfl]
    refine ⟨h.ge, fun m hm => ?_⟩
    by_contra hcon
    push_neg at hcon
    have : m * m < Nat.sqrt n * Nat.sqrt n := Nat.mul_self_lt_mul_self hcon
    omega
  · simp only [if_neg h]
    have hub : n < (Nat.sqrt n + 1) * (Nat.sqrt n + 1) := Nat.lt_succ_sqrt n
    have hlb : Nat.sqrt n * Nat.sqrt n ≤ n := Nat.sqrt_le n
    refine ⟨hub.le, fun m hm => ?_⟩
    by_contra hcon
    push_neg at hcon
    have hms : m ≤ Nat.sqrt n := by omega
    have : m * m ≤ Nat.sqrt n * Nat.sqrt n := Nat.mul_le_mul hms hms
    omega

theorem ceil_div_spec (a b : ℕ) (hb : 1 ≤ b) : IsCeilDiv a b (ceil_div a b) := by
  unfold IsCeilDiv ceil_div
  constructor
  · have hdm := Nat.div_add_mod (a + b - 1) b
    have hm : (a + b - 1) % b < b := Nat.mod_lt _ (by omega)
    rw [mul_comm]
    generalize hP : b * ((a + b - 1) / b) = P at hdm ⊢
    omega
  · intro m hm
    have hlt : a + b - 1 < (m + 1) * b := by
      have : (m + 1) * b = m * b + b := by ring
      rw [this]
      generalize m * b = P at hm ⊢
      omega
    have := (Nat.div_lt_iff_lt_mul (show 0 < b by omega)).mpr hlt
    omega

theorem ceil_sqrt_pos (n : ℕ) (hn : 1 ≤ n) : 1 ≤ ceil_sqrt n := by
  have h := (ceil_sqrt_spec n).1
  by_contra hcon
  push_neg at hcon
  interval_cases (ceil_sqrt n)
  omega

theorem le_ceil_div_mul (a b : ℕ) (hb : 1 ≤ b) : a ≤ ceil_div a b * b :=
  (ceil_div_spec a b hb).1

/-! ### C10: injectivity of the grid-index mapping -/

/-- C10: within one sheet, the orientation-dependent index mapping
(portrait: `col = idx div rows`, `rowFromTop = idx mod rows`; landscape:
`rowFromTop = idx div cols`, `col = idx mod cols`) is injective for
`0 ≤ idx < rows * cols`, so no two pages of a chunk share a grid cell. -/
theorem C10_grid_index_injective (o : Orientation) (rows cols : ℕ)
    (hr : 1 ≤ rows) (hc : 1 ≤ cols) (i j : ℕ)
    (hi : i < rows * cols) (hj : j < rows * cols)
    (h : grid_index o rows cols i = grid_index o rows cols j) : i = j := by
  cases o <;>
    simp only [grid_index, Prod.mk.injEq] at h <;>
    obtain ⟨h1, h2⟩ := h
  · have e1 := Nat.div_add_mod i rows
    have e2 := Nat.div_add_mod j rows
    rw [h1, h2] at e1
    exact e1 ▸ e2
  · have e1 := Nat.div_add_mod i cols
    have e2 := Nat.div_add_mod j cols
    rw [h1, h2] at e1
    exact e1 ▸ e2

theorem C10_witness : (3 : ℕ) = 3 :=
  C10_grid_index_injective Orientation.portrait 2 2 (by decide) (by decide)
    3 3 (by decide) (by decide) rfl

/-! ### C1: the vertical placement offset -/

/-- C1 counterexample: the code's `offset_y` for a 100×100 page in the
bottom-left cell of a 2×2 portrait grid on a 200×300 sheet (cell 100×150) is
200, not the value 175 the centering formula
`rowFromBottom * cellHeight + (cellHeight - pageHeight * scale) / 2`
gives at the same input. -/
theorem C1_counterexample :
    place_page 100 150 2 2 Orientation.portrait 0 ⟨100, 100⟩ =
      Except.ok ⟨1, 0, 200⟩ ∧
    ¬ ((200 : ℚ) = ((2 : ℚ) - 1 - 0) * 150 + (150 - 100 * 1) / 2) := by
  constructor
  · simp only [place_page, grid_index]
    norm_num [min_def]
  · norm_num

/-- C1 amended: for every page placed on an N-up sheet, the vertical
placement offset top-aligns the scaled page within its grid cell:
`offsetY = rowFromBottom * cellHeight + (cellHeight - pageHeight * scale)`
with `rowFromBottom = rows - 1 - rowFromTop` (no halving of the leftover). -/
theorem C1_offsetY_top_aligned (cell_width cell_height : ℚ) (rows cols idx : ℕ)
    (o : Orientation) (src : SrcPage) (pl : Placement)
    (hpl : place_page cell_width cell_height rows cols o idx src = .ok pl) :
    pl.offsetY =
      ((rows : ℚ) - 1 - ((grid_index o rows cols idx).2 : ℚ)) * cell_height +
        (cell_height - src.height * pl.scale) := by
  by_cases h1 : src.width = 0
  · simp [place_page, h1] at hpl
  · by_cases h2 : src.height = 0
    · simp [place_page, h1, h2] at hpl
    · simp only [place_page, if_neg h1, if_neg h2, Except.ok.injEq] at hpl
      subst hpl
      push_cast
      ring

theorem C1_witness :
    (Placement.mk 1 0 200).offsetY =
      ((2 : ℚ) - 1 - ((grid_index Orientation.portrait 2 2 0).2 : ℚ)) * 150 +
        (150 - (100 : ℚ) * (Placement.mk 1 0 200).scale) :=
  C1_offsetY_top_aligned 100 150 2 2 0 Orientation.portrait ⟨100, 100⟩
    ⟨1, 0, 200⟩ (by simp only [place_page, grid_index]; norm_num [min_def])

/-! ### C3: the scale and the cell-containment of the scaled page -/

/-- C3: for every page with positive width and height placed on an N-up
sheet (chunk position `idx` within a `rows × cols` grid), the scale equals
`min(cellWidth/pageWidth, cellHeight/pageHeight)` and is positive, the
assigned cell indices are in range, and the scaled page's axis-aligned
bounding box, from `(offsetX, offsetY)` to
`(offsetX + pageWidth*scale, offsetY + pageHeight*scale)`, lies entirely
within the bounds of its assigned grid cell. -/
theorem C3_scale_fits_cell (cell_width cell_height : ℚ) (rows cols idx : ℕ)
    (o : Orientation) (src : SrcPage) (pl : Placement)
    (hw : 0 < src.width) (hh : 0 < src.height)
    (hcw : 0 < cell_width) (hch : 0 < cell_height)
    (hidx : idx < rows * cols)
    (hpl : place_page cell_width cell_height rows cols o idx src = .ok pl) :
    pl.scale = min (cell_width / src.width) (cell_height / src.height) ∧
    0 < pl.scale ∧
    (grid_index o rows cols idx).1 < cols ∧
    (grid_index o rows cols idx).2 < rows ∧
    ((grid_index o rows cols idx).1 : ℚ) * cell_width ≤ pl.offsetX ∧
    pl.offsetX + src.width * pl.scale ≤
      (((grid_index o rows cols idx).1 : ℚ) + 1) * cell_width ∧
    ((rows : ℚ) - 1 - ((grid_index o rows cols idx).2 : ℚ)) * cell_height ≤ pl.offsetY ∧
    pl.offsetY + src.height * pl.scale ≤
      (((rows : ℚ) - 1 - ((grid_index o rows cols idx).2 : ℚ)) + 1) * cell_height := by
  have hrc : 0 < rows * cols := Nat.lt_of_le_of_lt (Nat.zero_le idx) hidx
  have hrows : 0 < rows := by
    rcases Nat.eq_zero_or_pos rows with h | h
    · rw [h] at hrc
      simp at hrc
    · exact h
  have hcols : 0 < cols := by
    rcases Nat.eq_zero_or_pos cols with h | h
    · rw [h] at hrc
      simp at hrc
    · exact h
  have hcol : (grid_index o rows cols idx).1 < cols := by
    cases o
    · exact (Nat.div_lt_iff_lt_mul hrows).mpr (Nat.mul_comm rows cols ▸ hidx)
    · exact Nat.mod_lt idx hcols
  have hrow : (grid_index o rows cols idx).2 < rows := by
    cases o
    · exact Nat.mod_lt idx hrows
    · exact (Nat.div_lt_iff_lt_mul hcols).mpr hidx
  simp only [place_page, if_neg hw.ne', if_neg hh.ne', Except.ok.injEq] at hpl
  subst hpl
  have hws : src.width * min (cell_width / src.width) (cell_height / src.height) ≤
      cell_width := by
    have h1 : min (cell_width / src.width) (cell_height / src.height) ≤
        cell_width / src.width := min_le_left _ _
    have h2 := mul_le_mul_of_nonneg_left h1 hw.le
    rwa [mul_div_cancel₀ _ hw.ne'] at h2
  have hhs : src.height * min (cell_width / src.width) (cell_height / src.height) ≤
      cell_height := by
    have h1 : min (cell_width / src.width) (cell_height / src.height) ≤
        cell_height / src.height := min_le_right _ _
    have h2 := mul_le_mul_of_nonneg_left h1 hh.le
    rwa [mul_div_cancel₀ _ hh.ne'] at h2
  refine ⟨rfl, lt_min (div_pos hcw hw) (div_pos hch hh), hcol, hrow, ?_, ?_, ?_, ?_⟩
  · dsimp only
    linarith
  · dsimp only
    linarith
  · dsimp only
    push_cast
    linarith
  · dsimp only
    push_cast
    linarith

theorem C3_witness :
    (Placement.mk 1 0 200).scale = min ((100 : ℚ) / 100) ((150 : ℚ) / 100) ∧
    0 < (Placement.mk 1 0 200).scale ∧
    (grid_index Orientation.portrait 2 2 0).1 < 2 ∧
    (grid_index Orientation.portrait 2 2 0).2 < 2 ∧
    ((grid_index Orientation.portrait 2 2 0).1 : ℚ) * 100 ≤
      (Placement.mk 1 0 200).offsetX ∧
    (Placement.mk 1 0 200).offsetX + 100 * (Placement.mk 1 0 200).scale ≤
      (((grid_index Orientation.portrait 2 2 0).1 : ℚ) + 1) * 100 ∧
    (((2 : ℕ) : ℚ) - 1 - ((grid_index Orientation.portrait 2 2 0).2 : ℚ)) * 150 ≤
      (Placement.mk 1 0 200).offsetY ∧
    (Placement.mk 1 0 200).offsetY + 100 * (Placement.mk 1 0 200).scale ≤
      ((((2 : ℕ) : ℚ) - 1 - ((grid_index Orientation.portrait 2 2 0).2 : ℚ)) + 1) * 150 :=
  C3_scale_fits_cell 100 150 2 2 0 Orientation.portrait ⟨100, 100⟩ ⟨1, 0, 200⟩
    (by norm_num) (by norm_num) (by norm_num) (by norm_num) (by norm_num)
    (by simp only [place_page, grid_index]; norm_num [min_def])

/-! ### C2 and C5: grid resolution -/

theorem sqrt_eq_of (n a : ℕ) (h1 : a * a ≤ n) (h2 : n < (a + 1) * (a + 1)) :
    Nat.sqrt n = a := by
  have hle : a ≤ Nat.sqrt n := Nat.le_sqrt.mpr h1
  have hlt : Nat.sqrt n < a + 1 := Nat.sqrt_lt.mpr h2
  omega

/-- C2: when only pagesPerSheet is given (no explicit rows/cols), grid
resolution returns `cols = ceil(sqrt(p))` and `rows = ceil(p / cols)` —
characterised here as the least natural whose square covers `p` and the
least natural number of rows covering `p` given those columns — except that
when orientation is portrait, `p > 1` and `rows < cols`, the two values are
swapped. -/
theorem C2_pps_only (p : ℕ) (hp : 1 ≤ p) (o : Orientation) :
    resolve_nup_options (some (p : ℤ)) none none o =
      (if o = Orientation.portrait ∧ 1 < p ∧
          ceil_div p (ceil_sqrt p) < ceil_sqrt p then
        Except.ok (p, ceil_sqrt p, ceil_div p (ceil_sqrt p))
      else
        Except.ok (p, ceil_div p (ceil_sqrt p), ceil_sqrt p)) ∧
    IsCeilSqrt p (ceil_sqrt p) ∧
    IsCeilDiv p (ceil_sqrt p) (ceil_div p (ceil_sqrt p)) := by
  refine ⟨?_, ceil_sqrt_spec p, ceil_div_spec p _ (ceil_sqrt_pos p hp)⟩
  have hplt : ¬((p : ℤ) < 1) := by
    push_neg
    exact_mod_cast hp
  simp [resolve_nup_options, ensure_positive_int, hplt]

theorem C2_witness :
    (resolve_nup_options (some ((3 : ℕ) : ℤ)) none none Orientation.portrait =
      (if Orientation.portrait = Orientation.portrait ∧ 1 < 3 ∧
          ceil_div 3 (ceil_sqrt 3) < ceil_sqrt 3 then
        Except.ok (3, ceil_sqrt 3, ceil_div 3 (ceil_sqrt 3))
      else
        Except.ok (3, ceil_div 3 (ceil_sqrt 3), ceil_sqrt 3))) ∧
    IsCeilSqrt 3 (ceil_sqrt 3) ∧
    IsCeilDiv 3 (ceil_sqrt 3) (ceil_div 3 (ceil_sqrt 3)) :=
  C2_pps_only 3 (by norm_num) Orientation.portrait

/-- C5: for every input combination on which grid resolution succeeds, the
resolved values satisfy `pagesPerSheet ≤ rows * cols`. -/
theorem C5_no_page_dropped (pps0 rows0 cols0 : Option ℤ) (o : Orientation)
    (p r c : ℕ) (h : resolve_nup_options pps0 rows0 cols0 o = .ok (p, r, c)) :
    p ≤ r * c := by
  simp only [resolve_nup_options] at h
  split at h
  · split at h
    · exact absurd h (by simp)
    · rename_i pv hpv
      have hpv1 : 1 ≤ pv := (ensure_positive_int_ok _ _ hpv).1
      have hcs : 1 ≤ ceil_sqrt pv := ceil_sqrt_pos pv hpv1
      split at h
      · simp only [Except.ok.injEq, Prod.mk.injEq] at h
        obtain ⟨rfl, rfl, rfl⟩ := h
        rw [mul_comm]
        exact le_ceil_div_mul pv _ hcs
      · simp only [Except.ok.injEq, Prod.mk.injEq] at h
        obtain ⟨rfl, rfl, rfl⟩ := h
        exact le_ceil_div_mul pv _ hcs
  · split at h
    · exact absurd h (by simp)
    · split at h
      · exact absurd h (by simp)
      · rename_i rv hrv
        split at h
        · exact absurd h (by simp)
        · rename_i cv hcv
          split at h
          · simp only [Except.ok.injEq, Prod.mk.injEq] at h
            obtain ⟨rfl, rfl, rfl⟩ := h
            exact le_rfl
          · split at h
            · exact absurd h (by simp)
            · rename_i pv hpv
              split at h
              · exact absurd h (by simp)
              · rename_i hne
                simp only [Except.ok.injEq, Prod.mk.injEq] at h
                obtain ⟨rfl, rfl, rfl⟩ := h
                push_neg at hne
                exact hne.le

theorem C5_witness : (4 : ℕ) ≤ 2 * 2 :=
  C5_no_page_dropped (some 4) none none Orientation.portrait 4 2 2 (by
    have hs : Nat.sqrt 4 = 2 := sqrt_eq_of 4 2 (by norm_num) (by norm_num)
    simp [resolve_nup_options, ensure_positive_int, ceil_sqrt, ceil_div, hs])

/-! ### C7: the linear pass-through path -/

/-- C7: when pagesPerSheet resolves to 1, composing N source pages yields
exactly N output pages, in the same order, each passed through unscaled and
untransformed with dimensions identical to its source page. -/
theorem C7_linear_passthrough (page_refs : List SrcPage) (rows cols : ℕ)
    (o : Orientation) (out : List OutPage)
    (hout : compose_pages page_refs 1 rows cols o = .ok out)
    (i : ℕ) (hi : i < out.length) (hp : i < page_refs.length) :
    compose_pages page_refs 1 rows cols o =
      .ok (page_refs.map OutPage.passthrough) ∧
    out.length = page_refs.length ∧
    out.get ⟨i, hi⟩ = OutPage.passthrough (page_refs.get ⟨i, hp⟩) ∧
    (out.get ⟨i, hi⟩).dims =
      ((page_refs.get ⟨i, hp⟩).width, (page_refs.get ⟨i, hp⟩).height) := by
  have hform : compose_pages page_refs 1 rows cols o =
      .ok (page_refs.map OutPage.passthrough) := by
    simp [compose_pages, write_linear]
  have hout2 : out = page_refs.map OutPage.passthrough := by
    rw [hform] at hout
    injection hout with h2
    exact h2.symm
  subst hout2
  refine ⟨hform, by simp, ?_, ?_⟩
  · simp
  · simp [OutPage.dims]

theorem C7_witness :
    compose_pages [⟨5, 7⟩] 1 1 1 Orientation.portrait =
      .ok ([(⟨5, 7⟩ : SrcPage)].map OutPage.passthrough) ∧
    ([OutPage.passthrough (⟨5, 7⟩ : SrcPage)]).length =
      [(⟨5, 7⟩ : SrcPage)].length ∧
    ([OutPage.passthrough (⟨5, 7⟩ : SrcPage)]).get ⟨0, Nat.one_pos⟩ =
      OutPage.passthrough ([(⟨5, 7⟩ : SrcPage)].get ⟨0, Nat.one_pos⟩) ∧
    (([OutPage.passthrough (⟨5, 7⟩ : SrcPage)]).get ⟨0, Nat.one_pos⟩).dims =
      (([(⟨5, 7⟩ : SrcPage)].get ⟨0, Nat.one_pos⟩).width,
       ([(⟨5, 7⟩ : SrcPage)].get ⟨0, Nat.one_pos⟩).height) :=
  C7_linear_passthrough [⟨5, 7⟩] 1 1 Orientation.portrait
    [OutPage.passthrough ⟨5, 7⟩] (by simp [compose_pages, write_linear])
    0 Nat.one_pos Nat.one_pos

/-! ### C8: explicit rows/cols with pagesPerSheet -/

/-- C8: when rows and cols are both given (as positive values) together with
pagesPerSheet, grid resolution succeeds if and only if pagesPerSheet equals
rows * cols exactly, failing with InvalidArgument otherwise; when
pagesPerSheet is not given it defaults to rows * cols. -/
theorem C8_explicit_grid (p r c : ℤ) (hr : 1 ≤ r) (hc : 1 ≤ c) (o : Orientation) :
    ((∃ v, resolve_nup_options (some p) (some r) (some c) o = .ok v) ↔ p = r * c) ∧
    (p ≠ r * c →
      resolve_nup_options (some p) (some r) (some c) o = .error .invalidArgument) ∧
    resolve_nup_options none (some r) (some c) o =
      .ok ((r * c).toNat, r.toNat, c.toNat) := by
  lift r to ℕ using (by omega) with rn
  lift c to ℕ using (by omega) with cn
  have hrlt : ¬((rn : ℤ) < 1) := by push_neg; exact_mod_cast hr
  have hclt : ¬((cn : ℤ) < 1) := by push_neg; exact_mod_cast hc
  have hprod : ((rn * cn : ℕ) : ℤ) = (rn : ℤ) * cn := by push_cast; ring
  have hprodtn : ((rn : ℤ) * cn).toNat = rn * cn := by
    rw [← hprod, Int.toNat_natCast]
  refine ⟨?_, ?_, ?_⟩
  · constructor
    · rintro ⟨v, hv⟩
      by_cases hp1 : p < 1
      · simp [resolve_nup_options, ensure_positive_int, hrlt, hclt, hp1] at hv
      · simp only [resolve_nup_options, ensure_positive_int, hrlt, hclt, hp1] at hv
        simp at hv
        split at hv
        · rename_i heq
          rw [← hprod]
          generalize hm : rn * cn = m at heq ⊢
          omega
        · simp at hv
    · intro hpe
      have hrn : 1 ≤ rn := by exact_mod_cast hr
      have hcn : 1 ≤ cn := by exact_mod_cast hc
      have hp1 : ¬(p < 1) := by
        have h1 : (1 : ℤ) ≤ ((rn * cn : ℕ) : ℤ) := by
          exact_mod_cast Nat.one_le_iff_ne_zero.mpr
            (Nat.mul_ne_zero (by omega) (by omega))
        rw [hprod] at h1
        have h2 : (1 : ℤ) ≤ p := hpe ▸ h1
        omega
      have heq : p.toNat = rn * cn := by
        rw [hpe, hprodtn]
      refine ⟨(p.toNat, rn, cn), ?_⟩
      simp [resolve_nup_options, ensure_positive_int, hrlt, hclt, hp1, heq]
  · intro hne
    by_cases hp1 : p < 1
    · simp [resolve_nup_options, ensure_positive_int, hrlt, hclt, hp1]
    · have hnet : p.toNat ≠ rn * cn := by
        rw [← hprod] at hne
        generalize hm : rn * cn = m at hne ⊢
        omega
      simp [resolve_nup_options, ensure_positive_int, hrlt, hclt, hp1, hnet]
  · simp [resolve_nup_options, ensure_positive_int, hrlt, hclt, hprodtn,
      Int.toNat_natCast]

theorem C8_witness :
    ((∃ v, resolve_nup_options (some 4) (some 2) (some 2) Orientation.portrait =
        .ok v) ↔ (4 : ℤ) = 2 * 2) ∧
    ((4 : ℤ) ≠ 2 * 2 →
      resolve_nup_options (some 4) (some 2) (some 2) Orientation.portrait =
        .error .invalidArgument) ∧
    resolve_nup_options none (some 2) (some 2) Orientation.portrait =
      .ok (((2 : ℤ) * 2).toNat, (2 : ℤ).toNat, (2 : ℤ).toNat) :=
  C8_explicit_grid 4 2 2 (by norm_num) (by norm_num) Orientation.portrait

/-! ### C9: at least two resolved input files -/

/-- C9: input validation fails whenever the total number of resolved input
files — directory-scanned plus explicit positional — is fewer than 2,
independent of page counts (validation never inspects pages).  When the
directory scan is absent or nonempty the error is InvalidArgument; an empty
scanned directory fails even earlier. -/
theorem C9_two_files_required (dir_pdfs : Option (List String))
    (inputs : List String) (h : resolved_count dir_pdfs inputs < 2) :
    (∃ e, validate_file_paths dir_pdfs inputs = .error e) ∧
    (dir_pdfs ≠ some [] →
      validate_file_paths dir_pdfs inputs = .error .invalidArgument) := by
  match dir_pdfs with
  | none =>
    have hlen : inputs.length < 2 := by simpa [resolved_count] using h
    exact ⟨⟨.invalidArgument, by simp [validate_file_paths, hlen]⟩,
      fun _ => by simp [validate_file_paths, hlen]⟩
  | some [] =>
    exact ⟨⟨.notFound, by simp [validate_file_paths]⟩,
      fun hne => absurd rfl hne⟩
  | some (a :: l) =>
    have hlen : ((a :: l) ++ inputs).length < 2 := by
      simp only [List.length_append, List.length_cons]
      simp only [resolved_count, List.length_cons] at h
      omega
    have hne2 : ¬((a :: l) = ([] : List String)) := by simp
    have hv : validate_file_paths (some (a :: l)) inputs =
        .error .invalidArgument := by
      simp only [validate_file_paths, if_neg hne2, if_pos hlen]
    exact ⟨⟨.invalidArgument, hv⟩, fun _ => hv⟩

theorem C9_witness :
    (∃ e, validate_file_paths none ["a.pdf"] = .error e) ∧
    ((none : Option (List String)) ≠ some [] →
      validate_file_paths none ["a.pdf"] = .error .invalidArgument) :=
  C9_two_files_required none ["a.pdf"] (by simp [resolved_count])

/-! ### Chunking lemmas for C4 and C6 -/

theorem chunksAux_congr (k : ℕ) (hk : 1 ≤ k) :
    ∀ (f1 f2 : ℕ) (l : List SrcPage), l.length ≤ f1 → l.length ≤ f2 →
      chunksAux k f1 l = chunksAux k f2 l := by
  intro f1
  induction f1 with
  | zero =>
    intro f2 l h1 h2
    have hl : l = [] := List.length_eq_zero.mp (Nat.le_zero.mp h1)
    subst hl
    cases f2 <;> rfl
  | succ f ih =>
    intro f2 l h1 h2
    match l with
    | [] => cases f2 <;> rfl
    | a :: tl =>
      match f2 with
      | 0 => simp at h2
      | g + 1 =>
        simp only [chunksAux]
        congr 1
        apply ih
        · rw [List.length_drop]
          simp only [List.length_cons] at h1 ⊢
          omega
        · rw [List.length_drop]
          simp only [List.length_cons] at h2 ⊢
          omega

theorem chunks_nil (k : ℕ) : chunks k [] = [] := rfl

theorem chunks_cons (k : ℕ) (hk : 1 ≤ k) (l : List SrcPage) (hl : l ≠ []) :
    chunks k l = l.take k :: chunks k (l.drop k) := by
  match l with
  | [] => exact absurd rfl hl
  | a :: tl =>
    show chunksAux k (a :: tl).length (a :: tl) = _
    simp only [List.length_cons, chunksAux]
    congr 1
    exact chunksAux_congr k hk tl.length ((a :: tl).drop k).length ((a :: tl).drop k)
      (by rw [List.length_drop]; simp only [List.length_cons]; omega) le_rfl

theorem chunks_length (k : ℕ) (hk : 1 ≤ k) :
    ∀ (n : ℕ) (l : List SrcPage), l.length ≤ n → l ≠ [] →
      (chunks k l).length = ceil_div l.length k := by
  intro n
  induction n with
  | zero =>
    intro l h1 h2
    exact absurd (List.length_eq_zero.mp (Nat.le_zero.mp h1)) h2
  | succ n ih =>
    intro l h1 h2
    have hl1 : 1 ≤ l.length := List.length_pos.mpr h2
    rw [chunks_cons k hk l h2]
    by_cases hd : l.drop k = []
    · rw [hd, chunks_nil]
      have hlk : l.length ≤ k := by
        have := congrArg List.length hd
        rw [List.length_drop] at this
        simp only [List.length_nil] at this
        omega
      have q1 : 1 ≤ (l.length + k - 1) / k :=
        (Nat.le_div_iff_mul_le (show 0 < k by omega)).mpr (by omega)
      have q2 : (l.length + k - 1) / k < 2 :=
        (Nat.div_lt_iff_lt_mul (show 0 < k by omega)).mpr (by omega)
      unfold ceil_div
      simp only [List.length_cons, List.length_nil]
      omega
    · have hkl : k < l.length := by
        by_contra hcon
        push_neg at hcon
        exact hd (List.drop_eq_nil_iff.mpr hcon)
      have hdl : (l.drop k).length ≤ n := by
        rw [List.length_drop]
        omega
      rw [List.length_cons, ih (l.drop k) hdl hd, List.length_drop]
      unfold ceil_div
      have e1 : l.length - k + k - 1 = l.length - 1 := by omega
      have e2 : l.length + k - 1 = (l.length - 1) + k * 1 := by omega
      rw [e1, e2, Nat.add_mul_div_left _ _ (show 0 < k by omega)]

theorem chunks_flatten (k : ℕ) (hk : 1 ≤ k) :
    ∀ (n : ℕ) (l : List SrcPage), l.length ≤ n → (chunks k l).flatten = l := by
  intro n
  induction n with
  | zero =>
    intro l h1
    have hl : l = [] := List.length_eq_zero.mp (Nat.le_zero.mp h1)
    subst hl
    rfl
  | succ n ih =>
    intro l h1
    by_cases hl : l = []
    · subst hl
      rfl
    · rw [chunks_cons k hk l hl, List.flatten_cons]
      have hl1 : 1 ≤ l.length := List.length_pos.mpr hl
      rw [ih (l.drop k) (by rw [List.length_drop]; omega)]
      exact List.take_append_drop k l

theorem chunks_ne_nil (k : ℕ) (hk : 1 ≤ k) (l : List SrcPage) (hl : l ≠ []) :
    chunks k l ≠ [] := by
  rw [chunks_cons k hk l hl]
  simp

theorem chunks_getLast_length (k : ℕ) (hk : 1 ≤ k) :
    ∀ (n : ℕ) (l : List SrcPage), l.length ≤ n → l ≠ [] →
      (chunks k l).getLast?.map List.length =
        some (if l.length % k = 0 then k else l.length % k) := by
  intro n
  induction n with
  | zero =>
    intro l h1 h2
    exact absurd (List.length_eq_zero.mp (Nat.le_zero.mp h1)) h2
  | succ n ih =>
    intro l h1 h2
    have hl1 : 1 ≤ l.length := List.length_pos.mpr h2
    rw [chunks_cons k hk l h2]
    by_cases hd : l.drop k = []
    · rw [hd, chunks_nil]
      have hlk : l.length ≤ k := by
        have := congrArg List.length hd
        rw [List.length_drop] at this
        simp only [List.length_nil] at this
        omega
      simp only [List.getLast?_singleton, Option.map_some', List.length_take]
      rcases Nat.lt_or_ge l.length k with hlt | hge
      · rw [Nat.mod_eq_of_lt hlt, if_neg (by omega)]
        have hmin : min k l.length = l.length := by omega
        rw [hmin]
      · have hek : l.length = k := by omega
        rw [hek, Nat.mod_self, if_pos rfl]
        have hmin : min k k = k := min_self k
        rw [hmin]
    · have hkl : k < l.length := by
        by_contra hcon
        push_neg at hcon
        exact hd (List.drop_eq_nil_iff.mpr hcon)
      have hdne : chunks k (l.drop k) ≠ [] := chunks_ne_nil k hk _ hd
      obtain ⟨b, t, hbt⟩ : ∃ b t, chunks k (l.drop k) = b :: t := by
        match hx : chunks k (l.drop k) with
        | [] => exact absurd hx hdne
        | b :: t => exact ⟨b, t, rfl⟩
      rw [hbt, List.getLast?_cons_cons, ← hbt]
      rw [ih (l.drop k) (by rw [List.length_drop]; omega) hd, List.length_drop]
      have hmod : (l.length - k) % k = l.length % k := by
        conv_rhs => rw [← Nat.sub_add_cancel hkl.le]
        rw [Nat.add_mod_right]
      rw [hmod]

theorem sheets_of_chunks_length (rows cols : ℕ) (o : Orientation) :
    ∀ (cs : List (List SrcPage)) (ss : List Sheet),
      sheets_of_chunks rows cols o cs = .ok ss → ss.length = cs.length := by
  intro cs
  induction cs with
  | nil =>
    intro ss h
    simp only [sheets_of_chunks, Except.ok.injEq] at h
    subst h
    rfl
  | cons c rest ih =>
    intro ss h
    simp only [sheets_of_chunks] at h
    split at h
    · exact absurd h (by simp)
    · split at h
      · exact absurd h (by simp)
      · rename_i hrest
        simp only [Except.ok.injEq] at h
        subst h
        simp only [List.length_cons, ih _ hrest]

theorem place_chunk_length (cw ch : ℚ) (rows cols : ℕ) (o : Orientation) :
    ∀ (idx : ℕ) (chunk : List SrcPage) (pls : List Placement),
      place_chunk cw ch rows cols o idx chunk = .ok pls →
      pls.length = chunk.length := by
  intro idx chunk
  induction chunk generalizing idx with
  | nil =>
    intro pls h
    simp only [place_chunk, Except.ok.injEq] at h
    subst h
    rfl
  | cons src rest ih =>
    intro pls h
    simp only [place_chunk] at h
    split at h
    · exact absurd h (by simp)
    · split at h
      · exact absurd h (by simp)
      · rename_i hrest
        simp only [Except.ok.injEq] at h
        subst h
        simp only [List.length_cons, ih _ _ hrest]

theorem sheet_placements_length (chunk : List SrcPage) (rows cols : ℕ)
    (o : Orientation) (s : Sheet)
    (h : sheet_of_chunk chunk rows cols o = .ok s) :
    s.placements.length = chunk.length := by
  match chunk with
  | [] => simp [sheet_of_chunk] at h
  | first :: rest =>
    simp only [sheet_of_chunk, add_nup_page] at h
    split_ifs at h
    split at h
    · exact absurd h (by simp)
    · rename_i hpls
      simp only [Except.ok.injEq] at h
      subst h
      exact place_chunk_length _ _ _ _ _ _ _ _ hpls

theorem sheets_of_chunks_get (rows cols : ℕ) (o : Orientation) :
    ∀ (cs : List (List SrcPage)) (ss : List Sheet),
      sheets_of_chunks rows cols o cs = .ok ss →
      ∀ (i : ℕ) (hc : i < cs.length) (hs : i < ss.length),
        sheet_of_chunk (cs.get ⟨i, hc⟩) rows cols o = .ok (ss.get ⟨i, hs⟩) := by
  intro cs
  induction cs with
  | nil =>
    intro ss h i hc hs
    simp at hc
  | cons c1 rest ih =>
    intro ss h i hc hs
    simp only [sheets_of_chunks] at h
    split at h
    · exact absurd h (by simp)
    · rename_i s1 hs1
      split at h
      · exact absurd h (by simp)
      · rename_i ss2 hss2
        simp only [Except.ok.injEq] at h
        subst h
        match i with
        | 0 => exact hs1
        | i + 1 =>
          exact ih ss2 hss2 i (by simpa using hc) (by simpa using hs)

/-! ### C4: the sheet count and chunk structure -/

/-- C4: composing a non-empty sequence of N source pages with
pagesPerSheet = k > 1 yields exactly ceil(N/k) sheets (ceil_div is
characterised as the true ceiling), one per chunk of consecutive pages in
order (the chunks flatten back to the original sequence), and the last
chunk holds N mod k pages when that is nonzero, else k. -/
theorem C4_sheet_count (page_refs : List SrcPage) (k rows cols : ℕ)
    (o : Orientation) (hk : 1 < k) (hne : page_refs ≠ []) :
    (chunks k page_refs).length = ceil_div page_refs.length k ∧
    IsCeilDiv page_refs.length k (ceil_div page_refs.length k) ∧
    (chunks k page_refs).flatten = page_refs ∧
    (chunks k page_refs).getLast?.map List.length =
      some (if page_refs.length % k = 0 then k else page_refs.length % k) ∧
    ∀ sheets, write_nup page_refs k rows cols o = .ok sheets →
      sheets.length = ceil_div page_refs.length k ∧
      ∀ (i : ℕ) (hs : i < sheets.length)
        (hc2 : i < (chunks k page_refs).length),
        (sheets.get ⟨i, hs⟩).placements.length =
          ((chunks k page_refs).get ⟨i, hc2⟩).length := by
  have hk1 : 1 ≤ k := hk.le
  refine ⟨chunks_length k hk1 _ _ le_rfl hne, ceil_div_spec _ _ hk1,
    chunks_flatten k hk1 _ _ le_rfl,
    chunks_getLast_length k hk1 _ _ le_rfl hne, ?_⟩
  intro sheets hs
  simp only [write_nup] at hs
  refine ⟨?_, ?_⟩
  · rw [sheets_of_chunks_length rows cols o _ _ hs,
      chunks_length k hk1 _ _ le_rfl hne]
  · intro i hsi hci
    exact sheet_placements_length _ rows cols o _
      (sheets_of_chunks_get rows cols o _ _ hs i hci hsi)

theorem C4_witness :
    (chunks 2 [⟨1, 1⟩, ⟨1, 1⟩, ⟨1, 1⟩]).length =
      ceil_div [(⟨1, 1⟩ : SrcPage), ⟨1, 1⟩, ⟨1, 1⟩].length 2 ∧
    IsCeilDiv [(⟨1, 1⟩ : SrcPage), ⟨1, 1⟩, ⟨1, 1⟩].length 2
      (ceil_div [(⟨1, 1⟩ : SrcPage), ⟨1, 1⟩, ⟨1, 1⟩].length 2) ∧
    (chunks 2 [⟨1, 1⟩, ⟨1, 1⟩, ⟨1, 1⟩]).flatten =
      [(⟨1, 1⟩ : SrcPage), ⟨1, 1⟩, ⟨1, 1⟩] ∧
    (chunks 2 [⟨1, 1⟩, ⟨1, 1⟩, ⟨1, 1⟩]).getLast?.map List.length =
      some (if [(⟨1, 1⟩ : SrcPage), ⟨1, 1⟩, ⟨1, 1⟩].length % 2 = 0 then 2
        else [(⟨1, 1⟩ : SrcPage), ⟨1, 1⟩, ⟨1, 1⟩].length % 2) ∧
    ∀ sheets,
      write_nup [⟨1, 1⟩, ⟨1, 1⟩, ⟨1, 1⟩] 2 1 2 Orientation.portrait =
        .ok sheets →
      sheets.length =
        ceil_div [(⟨1, 1⟩ : SrcPage), ⟨1, 1⟩, ⟨1, 1⟩].length 2 ∧
      ∀ (i : ℕ) (hs : i < sheets.length)
        (hc2 : i < (chunks 2 [⟨1, 1⟩, ⟨1, 1⟩, ⟨1, 1⟩]).length),
        (sheets.get ⟨i, hs⟩).placements.length =
          ((chunks 2 [⟨1, 1⟩, ⟨1, 1⟩, ⟨1, 1⟩]).get ⟨i, hc2⟩).length :=
  C4_sheet_count [⟨1, 1⟩, ⟨1, 1⟩, ⟨1, 1⟩] 2 1 2 Orientation.portrait
    (by norm_num) (by simp)

/-! ### C6: zero-sized first page aborts the run -/

theorem place_page_error_kind (cw ch : ℚ) (rows cols : ℕ) (o : Orientation)
    (idx : ℕ) (src : SrcPage) (e : Err)
    (h : place_page cw ch rows cols o idx src = .error e) :
    e = .invalidGeometry := by
  simp only [place_page] at h
  split_ifs at h <;> simp_all

theorem place_chunk_error_kind (cw ch : ℚ) (rows cols : ℕ) (o : Orientation) :
    ∀ (idx : ℕ) (chunk : List SrcPage) (e : Err),
      place_chunk cw ch rows cols o idx chunk = .error e →
      e = .invalidGeometry := by
  intro idx chunk
  induction chunk generalizing idx with
  | nil =>
    intro e h
    simp [place_chunk] at h
  | cons src rest ih =>
    intro e h
    simp only [place_chunk] at h
    split at h
    · rename_i e2 he2
      simp only [Except.error.injEq] at h
      subst h
      exact place_page_error_kind cw ch rows cols o idx src _ he2
    · split at h
      · rename_i he2
        simp only [Except.error.injEq] at h
        subst h
        exact ih _ _ he2
      · exact absurd h (by simp)

theorem add_nup_page_error_kind (chunk : List SrcPage) (pw ph : ℚ)
    (rows cols : ℕ) (o : Orientation) (e : Err)
    (h : add_nup_page chunk pw ph rows cols o = .error e) :
    e = .invalidGeometry := by
  simp only [add_nup_page] at h
  split_ifs at h
  · simp only [Except.error.injEq] at h
    exact h.symm
  · split at h
    · rename_i he
      simp only [Except.error.injEq] at h
      subst h
      exact place_chunk_error_kind _ _ _ _ _ _ _ _ he
    · exact absurd h (by simp)

theorem sheet_of_chunk_error_kind (chunk : List SrcPage) (rows cols : ℕ)
    (o : Orientation) (hne : chunk ≠ []) (e : Err)
    (h : sheet_of_chunk chunk rows cols o = .error e) : e = .invalidGeometry := by
  match chunk with
  | [] => exact absurd rfl hne
  | first :: rest =>
    simp only [sheet_of_chunk] at h
    exact add_nup_page_error_kind _ _ _ _ _ _ _ h

theorem chunks_mem_ne_nil (k : ℕ) (hk : 1 ≤ k) :
    ∀ (n : ℕ) (l : List SrcPage) (c : List SrcPage), l.length ≤ n →
      c ∈ chunks k l → c ≠ [] := by
  intro n
  induction n with
  | zero =>
    intro l c h1 hm
    have hl : l = [] := List.length_eq_zero.mp (Nat.le_zero.mp h1)
    subst hl
    simp [chunks_nil] at hm
  | succ n ih =>
    intro l c h1 hm
    by_cases hl : l = []
    · subst hl
      simp [chunks_nil] at hm
    · rw [chunks_cons k hk l hl] at hm
      rcases List.mem_cons.mp hm with hm | hm
      · subst hm
        intro hcon
        rcases List.take_eq_nil_iff.mp hcon with h | h
        · omega
        · exact hl h
      · have hlp := List.length_pos.mpr hl
        exact ih (l.drop k) c (by rw [List.length_drop]; omega) hm

theorem sheets_of_chunks_error_of_mem (rows cols : ℕ) (o : Orientation) :
    ∀ (cs : List (List SrcPage)) (c : List SrcPage),
      (∀ c2, c2 ∈ cs → c2 ≠ []) → c ∈ cs →
      sheet_of_chunk c rows cols o = .error .invalidGeometry →
      sheets_of_chunks rows cols o cs = .error .invalidGeometry := by
  intro cs
  induction cs with
  | nil =>
    intro c _ hm _
    simp at hm
  | cons c1 rest ih =>
    intro c hne hm herr
    simp only [sheets_of_chunks]
    rcases hcase : sheet_of_chunk c1 rows cols o with e | s
    · have he : e = .invalidGeometry :=
        sheet_of_chunk_error_kind c1 rows cols o (hne c1 (by simp)) e hcase
      simp only [hcase, he]
    · have hcr : c ∈ rest := by
        rcases List.mem_cons.mp hm with h | h
        · subst h
          rw [hcase] at herr
          exact absurd herr (by simp)
        · exact h
      have hrec := ih c (fun c2 h2 => hne c2 (List.mem_cons_of_mem _ h2)) hcr herr
      simp only [hcase, hrec]

/-- C6: N-up composition of a chunk whose first page has zero width or zero
height fails with the InvalidGeometry error (the division-by-zero guard in
the scale computation), and the whole run produces no output: `write_nup`
returns the error instead of a sheet list, and the output file is only
written on success. -/
theorem C6_zero_first_page (p : SrcPage) (rest : List SrcPage) (rows cols : ℕ)
    (o : Orientation) (hr : 1 ≤ rows) (hc : 1 ≤ cols)
    (hz : p.width = 0 ∨ p.height = 0) :
    sheet_of_chunk (p :: rest) rows cols o = .error .invalidGeometry ∧
    ∀ (page_refs : List SrcPage) (pages_per_sheet : ℕ), 1 ≤ pages_per_sheet →
      (p :: rest) ∈ chunks pages_per_sheet page_refs →
      write_nup page_refs pages_per_sheet rows cols o =
        .error .invalidGeometry := by
  have hc0 : ¬(cols = 0 ∨ rows = 0) := by omega
  have hpp : ∀ cw ch : ℚ, place_page cw ch rows cols o 0 p =
      .error .invalidGeometry := by
    intro cw ch
    rcases hz with hz | hz
    · simp [place_page, hz]
    · by_cases hw : p.width = 0
      · simp [place_page, hw]
      · simp [place_page, hw, hz]
  have hsheet : sheet_of_chunk (p :: rest) rows cols o =
      .error .invalidGeometry := by
    simp only [sheet_of_chunk, get_page_size, add_nup_page, if_neg hc0,
      place_chunk, hpp]
  refine ⟨hsheet, ?_⟩
  intro page_refs pps hpps hmem
  simp only [write_nup]
  exact sheets_of_chunks_error_of_mem rows cols o _ _
    (fun c2 h2 => chunks_mem_ne_nil pps hpps page_refs.length page_refs c2
      le_rfl h2)
    hmem hsheet

theorem C6_witness :
    sheet_of_chunk [⟨0, 100⟩] 1 1 Orientation.portrait =
      .error .invalidGeometry ∧
    write_nup [⟨0, 100⟩] 1 1 1 Orientation.portrait =
      .error Err.invalidGeometry := by
  have h := C6_zero_first_page ⟨0, 100⟩ [] 1 1 Orientation.portrait
    (le_refl 1) (le_refl 1) (Or.inl rfl)
  exact ⟨h.1, h.2 [⟨0, 100⟩] 1 (le_refl 1) (by simp [chunks, chunksAux])⟩

end MergePdfs
